import Mathlib

/-!
A shallow embedding of the `rula` rule engine: the resource pool model
(`types.go`), the rule runner (`runner.go`) and the rule parser, together
with proofs about the claims of the specification.

Conventions used throughout:
* Go `int`/`int64` values are embedded as `Int` (no claim involves overflow).
* Go maps are embedded as association lists; lookups take the first binding,
  matching map semantics because the operations never create duplicate keys.
* Go pointer identity for `Resource` is embedded as structural equality,
  which coincides with it as long as distinct resources carry distinct
  contents (as in the repository's own tests).
* A `nil` map or a `nil` resource behaves, in every pool operation of the
  source, exactly like an absent binding, so both are embedded as absence.
* The mutable pool sets shared through a `RuleContext` are embedded as a
  heap: the context maps a relation to a pool set identifier, and the
  runner state maps identifiers to pool set contents, so that two relations
  aliasing one pool set (as Go references allow) stay aliased.
-/

namespace Rula

/-- Display name of a resource (types.go `Name`). -/
structure Name where
  Plural : String
  Singular : String
deriving DecidableEq

/-- A Resource is something that is used, consumed or produced (types.go). -/
structure Resource where
  ID : String
  Name : Name
deriving DecidableEq

/-- A Pool is a store of resources (types.go). -/
structure Pool where
  Resource : Resource
  Quantity : Int
  Capacity : Int
deriving DecidableEq

/-- A PoolSet maps resources to pools (Go `map[*Resource]*Pool`). -/
abbrev PoolSet := List (Resource × Pool)

/-- Replace the pool bound to `r` (Go mutates the `*Pool` in place, leaving
    the key set unchanged; an absent key is left absent). -/
def PoolSet.update : PoolSet → Resource → Pool → PoolSet
  | [], _, _ => []
  | e :: rest, r, pool =>
    if e.1 == r then (e.1, pool) :: rest else e :: PoolSet.update rest r pool

/-- types.go `PoolSet.Quantity`: 0 for an absent resource (or a nil
    set/resource, embedded as absence). -/
def PoolSet.Quantity (p : PoolSet) (r : Resource) : Int :=
  match List.lookup r p with
  | none => 0
  | some pool => pool.Quantity

/-- types.go `PoolSet.Capacity`. -/
def PoolSet.Capacity (p : PoolSet) (r : Resource) : Int :=
  match List.lookup r p with
  | none => 0
  | some pool => pool.Capacity

/-- types.go `PoolSet.SetCapacity`: create the pool with quantity 0 if
    absent, else update capacity only. -/
def PoolSet.SetCapacity (p : PoolSet) (r : Resource) (c : Int) : PoolSet :=
  match List.lookup r p with
  | none => p ++ [(r, { Resource := r, Quantity := 0, Capacity := c })]
  | some pool => PoolSet.update p r { pool with Capacity := c }

/-- types.go `PoolSet.Add`: add `q`, clamp to capacity, return the excess
    that could not be added (the whole of `q` when the pool is absent). -/
def PoolSet.Add (p : PoolSet) (r : Resource) (q : Int) : PoolSet × Int :=
  match List.lookup r p with
  | none => (p, q)
  | some pool =>
    let q1 := pool.Quantity + q
    if q1 > pool.Capacity then
      (PoolSet.update p r { pool with Quantity := pool.Capacity }, q1 - pool.Capacity)
    else
      (PoolSet.update p r { pool with Quantity := q1 }, 0)

/-- types.go `PoolSet.Set`: set the quantity to `q`, clamp to capacity,
    return the excess (the whole of `q` when the pool is absent). -/
def PoolSet.Set (p : PoolSet) (r : Resource) (q : Int) : PoolSet × Int :=
  match List.lookup r p with
  | none => (p, q)
  | some pool =>
    if q > pool.Capacity then
      (PoolSet.update p r { pool with Quantity := pool.Capacity }, q - pool.Capacity)
    else
      (PoolSet.update p r { pool with Quantity := q }, 0)

/-- types.go `PoolSet.Remove`: remove all of `q` or nothing; returns the
    amount that could not be removed. -/
def PoolSet.Remove (p : PoolSet) (r : Resource) (q : Int) : PoolSet × Int :=
  match List.lookup r p with
  | none => (p, q)
  | some pool =>
    if pool.Quantity < q then
      (p, q)
    else
      (PoolSet.update p r { pool with Quantity := pool.Quantity - q }, 0)

/-- A single mutating call on a pool set: the spec's "sequence of Add and
    Set calls" ranges over lists of these. -/
inductive PoolOp where
  | add (r : Resource) (q : Int)
  | set (r : Resource) (q : Int)
deriving DecidableEq

/-- Apply a sequence of `Add`/`Set` calls in order, discarding the returned
    excess exactly as the runner does. -/
def applyPoolOps : List PoolOp → PoolSet → PoolSet
  | [], p => p
  | PoolOp.add r q :: rest, p => applyPoolOps rest (PoolSet.Add p r q).1
  | PoolOp.set r q :: rest, p => applyPoolOps rest (PoolSet.Set p r q).1

/-- The quantity requested by a pool operation. -/
def PoolOp.quantity : PoolOp → Int
  | PoolOp.add _ q => q
  | PoolOp.set _ q => q

/-- Every pool of the set satisfies the spec's invariant
    `0 ≤ quantity ≤ capacity`. -/
def PoolSet.WF (p : PoolSet) : Prop :=
  ∀ e ∈ p, 0 ≤ e.2.Quantity ∧ e.2.Quantity ≤ e.2.Capacity

instance (p : PoolSet) : Decidable (PoolSet.WF p) := by
  unfold PoolSet.WF; infer_instance

/-- A relation names which pool set of a context a specifier applies to
    (Go `type Relation string`). -/
abbrev Relation := String

def RelationSelf : Relation := "self"

def RelationGlobal : Relation := "global"

def RelationLocation : Relation := "location"

/-- Comparison operator of a precondition (Go `type Op int`). -/
abbrev Op := Int

def OpEquals : Op := 0

def OpGreaterThan : Op := 1

def OpGreaterThanOrEqual : Op := 2

def OpLessThan : Op := 3

def OpLessThanOrEqual : Op := 4

/-- types.go `ResourceSource`. -/
structure ResourceSource where
  Relation : Relation
  Resource : Resource
deriving DecidableEq

/-- types.go `ResourceSpecifier`. -/
structure ResourceSpecifier where
  Relation : Relation
  Resource : Resource
  Quantity : Int
deriving DecidableEq

/-- types.go `ResourceCondition` (Go embeds `ResourceSpecifier`). -/
structure ResourceCondition extends ResourceSpecifier where
  Op : Op
deriving DecidableEq

/-- types.go `Rule`. Go's `OnFail *Rule` pointer is embedded as an index
    into the rule environment (the list of all parsed rules), which keeps
    self-referential and cyclic fallback graphs representable. -/
structure Rule where
  Name : String
  Period : Int
  Preconditions : List ResourceCondition
  Inputs : List ResourceSpecifier
  Outputs : List ResourceSpecifier
  Sets : List ResourceSpecifier
  Manual : Bool
  Repeat : Int
  RepeatFrom : Option ResourceSource
  OnFail : Option Nat
deriving DecidableEq

/-- types.go `RuleState`. -/
structure RuleState where
  LastRun : Int
deriving DecidableEq

/-- types.go `RuleContext`: relation → pool set. The pool set is named by a
    heap identifier so that aliased pool sets stay aliased. -/
structure RuleContext where
  Pools : List (Relation × Nat)
deriving DecidableEq

/-- The mutable pool sets, by identifier. -/
abbrev Heap := List (Nat × PoolSet)

/-- Dereference a pool set identifier; a dangling identifier behaves like a
    nil pool set (which every pool operation treats as empty). -/
def heapFind (h : Heap) (psid : Nat) : PoolSet :=
  (List.lookup psid h).getD []

/-- Write back the contents of a pool set (in Go this is the in-place
    mutation of the shared map). -/
def heapUpdate : Heap → Nat → PoolSet → Heap
  | [], _, _ => []
  | e :: rest, psid, ps =>
    if e.1 == psid then (e.1, ps) :: rest else e :: heapUpdate rest psid ps

def heapAdd (h : Heap) (psid : Nat) (r : Resource) (q : Int) : Heap × Int :=
  let pr := PoolSet.Add (heapFind h psid) r q
  (heapUpdate h psid pr.1, pr.2)

def heapSet (h : Heap) (psid : Nat) (r : Resource) (q : Int) : Heap × Int :=
  let pr := PoolSet.Set (heapFind h psid) r q
  (heapUpdate h psid pr.1, pr.2)

def heapRemove (h : Heap) (psid : Nat) (r : Resource) (q : Int) : Heap × Int :=
  let pr := PoolSet.Remove (heapFind h psid) r q
  (heapUpdate h psid pr.1, pr.2)

/-- The hard errors the runner can surface (runner.go builds these with
    `fmt.Errorf`; the embedding keeps them structured). -/
inductive Err where
  | noPreconditionPoolset (rule : String) (relation : Relation)
  | unknownOperation (rule : String) (op : Op)
  | noInputPoolset (rule : String) (relation : Relation)
deriving DecidableEq

/-- runner.go `canRun`, precondition loop: the first false comparison
    returns false; an absent relation or unknown operator is a hard
    error. -/
def checkConds (ruleName : String) (ctx : RuleContext) (h : Heap) :
    List ResourceCondition → Except Err Bool
  | [] => .ok true
  | c :: rest =>
    match List.lookup c.Relation ctx.Pools with
    | none => .error (.noPreconditionPoolset ruleName c.Relation)
    | some psid =>
      let q := PoolSet.Quantity (heapFind h psid) c.Resource
      if c.Op = OpEquals then
        if q ≠ c.Quantity then .ok false else checkConds ruleName ctx h rest
      else if c.Op = OpGreaterThan then
        if ¬ q > c.Quantity then .ok false else checkConds ruleName ctx h rest
      else if c.Op = OpGreaterThanOrEqual then
        if ¬ q ≥ c.Quantity then .ok false else checkConds ruleName ctx h rest
      else if c.Op = OpLessThan then
        if ¬ q < c.Quantity then .ok false else checkConds ruleName ctx h rest
      else if c.Op = OpLessThanOrEqual then
        if ¬ q ≤ c.Quantity then .ok false else checkConds ruleName ctx h rest
      else .error (.unknownOperation ruleName c.Op)

/-- runner.go `canRun`, input-availability loop: an absent relation is a
    hard error; an insufficient quantity returns false. -/
def checkInputs (ruleName : String) (ctx : RuleContext) (h : Heap) :
    List ResourceSpecifier → Except Err Bool
  | [] => .ok true
  | inp :: rest =>
    match List.lookup inp.Relation ctx.Pools with
    | none => .error (.noInputPoolset ruleName inp.Relation)
    | some psid =>
      if inp.Quantity > PoolSet.Quantity (heapFind h psid) inp.Resource then .ok false
      else checkInputs ruleName ctx h rest

/-- runner.go `Runner.canRun`: all preconditions, then all inputs; never
    mutates any pool. -/
def canRun (rule : Rule) (ctx : RuleContext) (h : Heap) : Except Err Bool :=
  match checkConds rule.Name ctx h rule.Preconditions with
  | .error e => .error e
  | .ok false => .ok false
  | .ok true => checkInputs rule.Name ctx h rule.Inputs

/-- runner.go `RunRule` lines 42-59, determination of the round count:
    `none` is the early `return nil` taken when the dynamic repeat source
    names a relation absent from the context; otherwise the initial value
    of `rounds`. -/
def initialRounds (rule : Rule) (ctx : RuleContext) (h : Heap) : Option Int :=
  match rule.RepeatFrom with
  | none => some (rule.Repeat + 1)
  | some src =>
    match List.lookup src.Relation ctx.Pools with
    | none => none
    | some psid =>
      match List.lookup src.Resource (heapFind h psid) with
      | none => some 0
      | some pool => some pool.Quantity

/-- runner.go `RunRule` input-application loop: `Remove` each input in
    declared order; an absent relation or a failed removal aborts with the
    mutations made so far (`false`). -/
def applyInputs (ctx : RuleContext) : List ResourceSpecifier → Heap → Heap × Bool
  | [], h => (h, true)
  | inp :: rest, h =>
    match List.lookup inp.Relation ctx.Pools with
    | none => (h, false)
    | some psid =>
      let pr := heapRemove h psid inp.Resource inp.Quantity
      if pr.2 > 0 then (pr.1, false) else applyInputs ctx rest pr.1

/-- runner.go `RunRule` output-application loop: `Add` each output, excess
    lost; an absent relation aborts (`false`). -/
def applyOutputs (ctx : RuleContext) : List ResourceSpecifier → Heap → Heap × Bool
  | [], h => (h, true)
  | out :: rest, h =>
    match List.lookup out.Relation ctx.Pools with
    | none => (h, false)
    | some psid => applyOutputs ctx rest (heapAdd h psid out.Resource out.Quantity).1

/-- runner.go `RunRule` set-application loop: `Set` each specifier, excess
    lost; an absent relation aborts (`false`). -/
def applySets (ctx : RuleContext) : List ResourceSpecifier → Heap → Heap × Bool
  | [], h => (h, true)
  | s :: rest, h =>
    match List.lookup s.Relation ctx.Pools with
    | none => (h, false)
    | some psid => applySets ctx rest (heapSet h psid s.Resource s.Quantity).1

/-- The runner's mutable view: the pool sets reachable from the context and
    the per-rule states owned by the `Runner`. -/
structure RunState where
  heap : Heap
  ruleStates : List (Nat × RuleState)
deriving DecidableEq

/-- Go `ru.ruleStates[rule]`: the zero `RuleState` when absent. -/
def getRuleState (st : RunState) (rid : Nat) : RuleState :=
  (List.lookup rid st.ruleStates).getD { LastRun := 0 }

def rsUpdate : List (Nat × RuleState) → Nat → RuleState → List (Nat × RuleState)
  | [], rid, s => [(rid, s)]
  | e :: rest, rid, s =>
    if e.1 == rid then (e.1, s) :: rest else e :: rsUpdate rest rid s

/-- Go `ru.ruleStates[rule] = state` (map assignment: replace or insert). -/
def setRuleState (st : RunState) (rid : Nat) (s : RuleState) : RunState :=
  { st with ruleStates := rsUpdate st.ruleStates rid s }

/-- runner.go `RunRule` round loop (`for rounds > 0`), abstracted over the
    recursive fallback invocation `recur` (in Go, `ru.RunRule(rule.OnFail,
    tick, ctx)`). The result pairs the final state with the returned error;
    `none` is reserved for fuel exhaustion inside `recur`. -/
def roundLoop (recur : Nat → RunState → Option (RunState × Option Err))
    (rule : Rule) (ctx : RuleContext) :
    Nat → Bool → RunState → Option (RunState × Option Err)
  | 0, _, st => some (st, none)
  | n + 1, runOnce, st =>
    match canRun rule ctx st.heap with
    | .error e => some (st, some e)
    | .ok false =>
      if runOnce = false then
        match rule.OnFail with
        | some fid => recur fid st
        | none => some (st, none)
      else some (st, none)
    | .ok true =>
      match applyInputs ctx rule.Inputs st.heap with
      | (h1, false) => some ({ st with heap := h1 }, none)
      | (h1, true) =>
        match applyOutputs ctx rule.Outputs h1 with
        | (h2, false) => some ({ st with heap := h2 }, none)
        | (h2, true) =>
          match applySets ctx rule.Sets h2 with
          | (h3, false) => some ({ st with heap := h3 }, none)
          | (h3, true) => roundLoop recur rule ctx n true { st with heap := h3 }

/-- runner.go `Runner.RunRule`. `fuel` bounds the depth of the fallback
    recursion, which Go leaves unbounded: `none` means the Go call would
    still be recursing past that depth. On every other path the result is
    `some (final state, returned error)`, and the deferred
    `ruleStates[rule] = {LastRun: tick}` write is applied to every exit
    path past the throttle check. -/
def runRule (env : List Rule) : Nat → Nat → Int → RuleContext → RunState →
    Option (RunState × Option Err)
  | 0, _, _, _, _ => none
  | fuel + 1, rid, tick, ctx, st =>
    match List.get? env rid with
    | none => some (st, none)
    | some rule =>
      if (getRuleState st rid).LastRun + rule.Period > tick then
        some (st, none)
      else
        let body :=
          match initialRounds rule ctx st.heap with
          | none => some (st, none)
          | some rounds =>
            roundLoop (fun fid st' => runRule env fuel fid tick ctx st')
              rule ctx rounds.toNat false st
        match body with
        | none => none
        | some (st', e) => some (setRuleState st' rid { LastRun := tick }, e)

/-- runner.go `Runner.Run`: iterate the batch in order, skip rules whose
    period is 0, abort on the first error returned by `RunRule`. The rule
    list is given as indices into the environment (Go iterates `[]*Rule`
    directly, so an out-of-range index cannot arise; it is skipped). -/
def run (env : List Rule) (fuel : Nat) :
    List Nat → Int → RuleContext → RunState → Option (RunState × Option Err)
  | [], _, _, st => some (st, none)
  | rid :: rest, tick, ctx, st =>
    match List.get? env rid with
    | none => run env fuel rest tick ctx st
    | some rule =>
      if rule.Period = 0 then run env fuel rest tick ctx st
      else
        match runRule env fuel rid tick ctx st with
        | none => none
        | some (st', some e) => some (st', some e)
        | some (st', none) => run env fuel rest tick ctx st'

/-- One directive of an already-tokenized loon object: name, pre-split
    argument list, raw argument text and source line (the loon scanner is
    an external dependency; the rule parser consumes this stream). -/
structure Directive where
  Name : String
  Args : List String
  ArgText : String
  Line : Nat
deriving DecidableEq

/-- One `rule <name> ... end` (or `resource ...`) block as delivered by the
    loon tokenizer. -/
structure LoonObject where
  ObjType : String
  Name : String
  Line : Nat
  Directives : List Directive
deriving DecidableEq

/-- The parse errors of `RuleParser.Parse` (Go builds these with
    `fmt.Errorf`; the embedding keeps them structured, with the same line
    and name payloads). -/
inductive ParseErr where
  | unexpectedToken (line : Nat)
  | malformedResourceSpecifier (line : Nat)
  | malformedResourceCondition (line : Nat)
  | unknownResource (line : Nat) (name : String)
  | invalidQuantity (line : Nat)
  | unknownOperator (line : Nat)
  | malformedEvery (line : Nat)
  | invalidPeriod (line : Nat)
  | malformedRepeat (line : Nat)
  | invalidRepeat (line : Nat)
  | malformedOnfail (line : Nat)
  | unknownDirective (line : Nat) (name : String)
  | unknownOnfailRule (rule : String) (target : String)
deriving DecidableEq

/-- ASCII lower-casing of one character (the parser applies Go
    `strings.ToLower` only to directive arguments and catalog names, which
    are ASCII identifiers). -/
def toLowerChar (c : Char) : Char :=
  if 65 ≤ c.toNat ∧ c.toNat ≤ 90 then Char.ofNat (c.toNat + 32) else c

/-- Go `strings.ToLower`, restricted to its ASCII behavior. -/
def strToLower (s : String) : String := ⟨s.data.map toLowerChar⟩

def digitVal (c : Char) : Option Nat :=
  if 48 ≤ c.toNat ∧ c.toNat ≤ 57 then some (c.toNat - 48) else none

def digitsValAux : List Char → Nat → Option Nat
  | [], acc => some acc
  | c :: rest, acc =>
    match digitVal c with
    | none => none
    | some d => digitsValAux rest (acc * 10 + d)

def digitsVal : List Char → Option Nat
  | [] => none
  | ds => digitsValAux ds 0

/-- Go `strconv.Atoi`: optional sign, then at least one decimal digit (the
    quantities of the claims are far from the 64-bit overflow cutoff). -/
def Atoi (s : String) : Option Int :=
  match s.data with
  | '-' :: rest => (digitsVal rest).map (fun n => -(n : Int))
  | '+' :: rest => (digitsVal rest).map (fun n => (n : Int))
  | ds => (digitsVal ds).map (fun n => (n : Int))

instance {e a : Type} [DecidableEq e] [DecidableEq a] : DecidableEq (Except e a) := fun x y =>
  match x, y with
  | .ok u, .ok v =>
    if h : u = v then isTrue (by rw [h]) else isFalse (by intro hc; injection hc; contradiction)
  | .error u, .error v =>
    if h : u = v then isTrue (by rw [h]) else isFalse (by intro hc; injection hc; contradiction)
  | .ok _, .error _ => isFalse (by intro hc; injection hc)
  | .error _, .ok _ => isFalse (by intro hc; injection hc)

/-- Go `NewRuleParser`: the catalog map from lower-cased singular name to
    resource (map insertion: replace or append). -/
def rmInsert : List (String × Resource) → String → Resource → List (String × Resource)
  | [], name, r => [(name, r)]
  | e :: rest, name, r =>
    if e.1 == name then (e.1, r) :: rest else e :: rmInsert rest name r

def NewRuleParser (resources : List Resource) : List (String × Resource) :=
  resources.foldl (fun rm r => rmInsert rm (strToLower r.Name.Singular) r) []

/-- One arm of the directive switch in `RuleParser.Parse`. The accumulator
    is the rule built so far plus the pending `onfail` target name
    (Go's `rulespec.onFailRuleName`, empty when unset). `objLine` is the
    enclosing object's line (the `repeat using` arm reports unknown
    resources against it). -/
def parseDirective (rm : List (String × Resource)) (objLine : Nat)
    (dir : Directive) (acc : Rule × String) : Except ParseErr (Rule × String) :=
  let rule := acc.1
  if dir.Name = "in" ∨ dir.Name = "out" ∨ dir.Name = "set" then
    let build := fun (relation : Relation) (resname qty : String) =>
      match List.lookup (strToLower resname) rm with
      | none => .error (.unknownResource dir.Line (strToLower resname))
      | some res =>
        match Atoi qty with
        | none => .error (.invalidQuantity dir.Line)
        | some quantity =>
          let spec : ResourceSpecifier :=
            { Relation := relation, Resource := res, Quantity := quantity }
          if dir.Name = "in" then
            Except.ok ({ rule with Inputs := rule.Inputs ++ [spec] }, acc.2)
          else if dir.Name = "set" then
            Except.ok ({ rule with Sets := rule.Sets ++ [spec] }, acc.2)
          else
            Except.ok ({ rule with Outputs := rule.Outputs ++ [spec] }, acc.2)
    match dir.Args with
    | [a, b] => build RelationSelf a b
    | [rel, a, b] => build (strToLower rel) a b
    | _ => .error (.malformedResourceSpecifier dir.Line)
  else if dir.Name = "if" then
    let build := fun (relation : Relation) (resname opStr qty : String) =>
      match List.lookup (strToLower resname) rm with
      | none => .error (.unknownResource dir.Line (strToLower resname))
      | some res =>
        match (if opStr = "=" then some OpEquals
               else if opStr = ">" then some OpGreaterThan
               else if opStr = "<" then some OpLessThan
               else if opStr = ">=" then some OpGreaterThanOrEqual
               else if opStr = "<=" then some OpLessThanOrEqual
               else none) with
        | none => .error (.unknownOperator dir.Line)
        | some op =>
          match Atoi qty with
          | none => .error (.invalidQuantity dir.Line)
          | some quantity =>
            Except.ok ({ rule with Preconditions := rule.Preconditions ++
              [{ Relation := relation, Resource := res, Quantity := quantity,
                 Op := op }] }, acc.2)
    match dir.Args with
    | [a, op, b] => build RelationSelf a op b
    | [rel, a, op, b] => build (strToLower rel) a op b
    | _ => .error (.malformedResourceCondition dir.Line)
  else if dir.Name = "every" then
    match dir.Args with
    | [a] =>
      match Atoi a with
      | none => .error (.invalidPeriod dir.Line)
      | some period => .ok ({ rule with Period := period }, acc.2)
    | _ => .error (.malformedEvery dir.Line)
  else if dir.Name = "repeat" then
    match dir.Args with
    | [a] =>
      match Atoi a with
      | none => .error (.invalidRepeat dir.Line)
      | some count => .ok ({ rule with Repeat := count }, acc.2)
    | ["using", a] =>
      match List.lookup (strToLower a) rm with
      | none => .error (.unknownResource objLine (strToLower a))
      | some res =>
        let src : ResourceSource := { Relation := RelationSelf, Resource := res }
        .ok ({ rule with RepeatFrom := some src }, acc.2)
    | ["using", rel, a] =>
      match List.lookup (strToLower a) rm with
      | none => .error (.unknownResource objLine (strToLower a))
      | some res =>
        let src : ResourceSource := { Relation := strToLower rel, Resource := res }
        .ok ({ rule with RepeatFrom := some src }, acc.2)
    | _ => .error (.malformedRepeat dir.Line)
  else if dir.Name = "onfail" then
    match dir.Args with
    | [a] => .ok (rule, a)
    | _ => .error (.malformedOnfail dir.Line)
  else .error (.unknownDirective dir.Line dir.Name)

def parseDirectives (rm : List (String × Resource)) (objLine : Nat) :
    List Directive → Rule × String → Except ParseErr (Rule × String)
  | [], acc => .ok acc
  | dir :: rest, acc => do
    let acc' ← parseDirective rm objLine dir acc
    parseDirectives rm objLine rest acc'

/-- First pass of `RuleParser.Parse`: each `rule` block becomes a rule
    (period defaulting to 1) plus its pending `onfail` target name. -/
def parseObjects (rm : List (String × Resource)) :
    List LoonObject → Except ParseErr (List (Rule × String))
  | [] => .ok []
  | obj :: rest =>
    if obj.ObjType ≠ "rule" then .error (.unexpectedToken obj.Line)
    else do
      let spec ← parseDirectives rm obj.Line obj.Directives
        ({ Name := obj.Name, Period := 1, Preconditions := [], Inputs := [],
           Outputs := [], Sets := [], Manual := false, Repeat := 0,
           RepeatFrom := none, OnFail := none }, "")
      let more ← parseObjects rm rest
      .ok (spec :: more)

def idxInsert : List (String × Nat) → String → Nat → List (String × Nat)
  | [], name, i => [(name, i)]
  | e :: rest, name, i =>
    if e.1 == name then (e.1, i) :: rest else e :: idxInsert rest name i

def buildIndexAux : List (Rule × String) → Nat → List (String × Nat) → List (String × Nat)
  | [], _, idx => idx
  | spec :: rest, i, idx => buildIndexAux rest (i + 1) (idxInsert idx spec.1.Name i)

/-- Go `ruleIndex`: rule name → position, later blocks overwriting earlier
    ones of the same name. -/
def buildIndex (specs : List (Rule × String)) : List (String × Nat) :=
  buildIndexAux specs 0 []

/-- Second pass of `RuleParser.Parse`: resolve each pending `onfail` name
    against the index of the whole file (forward, backward, self and cyclic
    references all resolve); an unresolved name is an error carrying the
    referencing rule's name. -/
def resolveOnFail (idx : List (String × Nat)) :
    List (Rule × String) → Except ParseErr (List Rule)
  | [] => .ok []
  | (rule, fname) :: rest =>
    if fname = "" then do
      let more ← resolveOnFail idx rest
      .ok (rule :: more)
    else
      match List.lookup fname idx with
      | none => .error (.unknownOnfailRule rule.Name fname)
      | some i => do
        let more ← resolveOnFail idx rest
        .ok ({ rule with OnFail := some i } :: more)

/-- Go `RuleParser.Parse` over the tokenized object stream: collect all
    blocks, then link `onfail` targets by name. -/
def RuleParser.Parse (rm : List (String × Resource)) (objs : List LoonObject) :
    Except ParseErr (List Rule) := do
  let specs ← parseObjects rm objs
  resolveOnFail (buildIndex specs) specs

/-- The fallback chain from `rid` reaches, within the given number of
    steps, a rule without a fallback (or an identifier outside the
    environment, which cannot arise from Go pointers): the acyclicity
    measure under which `runRule` terminates. -/
def terminatesIn (env : List Rule) : Nat → Nat → Bool
  | 0, _ => false
  | n + 1, rid =>
    match List.get? env rid with
    | none => true
    | some rule =>
      match rule.OnFail with
      | none => true
      | some fid => terminatesIn env n fid

/-! Concrete resources, rules, contexts and states used by the witnesses
    and counterexamples below. They mirror the repository's own test data
    (`runner_test.go`). -/

def ironOre : Resource := { ID := "", Name := { Plural := "", Singular := "iron_ore" } }

def iron : Resource := { ID := "", Name := { Plural := "", Singular := "iron" } }

def rmTest : List (String × Resource) := NewRuleParser [ironOre, iron]

def c8Obj : LoonObject :=
  { ObjType := "rule"
    Name := "test"
    Line := 1
    Directives := [
      { Name := "if", Args := ["global", "iron_ore", ">", "6"], ArgText := "global iron_ore > 6", Line := 2 },
      { Name := "in", Args := ["global", "iron_ore", "3"], ArgText := "global iron_ore 3", Line := 3 },
      { Name := "out", Args := ["self", "iron", "1"], ArgText := "self iron 1", Line := 4 }] }

def c8Rule : Rule :=
  { Name := "test"
    Period := 1
    Preconditions := [{ Relation := "global", Resource := ironOre, Quantity := 6, Op := OpGreaterThan }]
    Inputs := [{ Relation := "global", Resource := ironOre, Quantity := 3 }]
    Outputs := [{ Relation := "self", Resource := iron, Quantity := 1 }]
    Sets := []
    Manual := false
    Repeat := 0
    RepeatFrom := none
    OnFail := none }

def rule7 : Rule :=
  { Name := "t"
    Period := 1
    Preconditions := []
    Inputs := [{ Relation := RelationSelf, Resource := ironOre, Quantity := 1 }]
    Outputs := []
    Sets := []
    Manual := false
    Repeat := 12
    RepeatFrom := none
    OnFail := none }

def env7 : List Rule := [rule7]

def ctx7 : RuleContext := { Pools := [(RelationSelf, 0)] }

def st7 : RunState :=
  { heap := [(0, [(ironOre, { Resource := ironOre, Quantity := 100, Capacity := 1000 })])]
    ruleStates := [] }

def st7out : RunState :=
  { heap := [(0, [(ironOre, { Resource := ironOre, Quantity := 87, Capacity := 1000 })])]
    ruleStates := [(0, { LastRun := 1 })] }

def ruleC7a : Rule :=
  { Name := "c7a"
    Period := 1
    Preconditions := []
    Inputs := []
    Outputs := []
    Sets := []
    Manual := false
    Repeat := 0
    RepeatFrom := some { Relation := RelationLocation, Resource := ironOre }
    OnFail := none }

def envC7a : List Rule := [ruleC7a]

def ruleC5 : Rule :=
  { Name := "c5"
    Period := 5
    Preconditions := []
    Inputs := []
    Outputs := [{ Relation := RelationSelf, Resource := iron, Quantity := 1 }]
    Sets := []
    Manual := false
    Repeat := 0
    RepeatFrom := none
    OnFail := none }

def envC5 : List Rule := [ruleC5]

def stC5 : RunState := { heap := [], ruleStates := [(0, { LastRun := 3 })] }

def ruleC6main : Rule :=
  { Name := "c6"
    Period := 1
    Preconditions := []
    Inputs := [{ Relation := RelationSelf, Resource := ironOre, Quantity := 5 }]
    Outputs := []
    Sets := []
    Manual := false
    Repeat := 0
    RepeatFrom := none
    OnFail := some 1 }

def ruleC6fb : Rule :=
  { Name := "c6fb"
    Period := 1
    Preconditions := []
    Inputs := []
    Outputs := [{ Relation := RelationSelf, Resource := iron, Quantity := 2 }]
    Sets := []
    Manual := false
    Repeat := 0
    RepeatFrom := none
    OnFail := none }

def envC6 : List Rule := [ruleC6main, ruleC6fb]

def ctxC6 : RuleContext := { Pools := [(RelationSelf, 0)] }

def stC6 : RunState :=
  { heap := [(0, [(ironOre, { Resource := ironOre, Quantity := 0, Capacity := 10 }),
                  (iron, { Resource := iron, Quantity := 0, Capacity := 10 })])]
    ruleStates := [] }

def ruleC3 : Rule :=
  { Name := "c3"
    Period := 1
    Preconditions := []
    Inputs := [{ Relation := RelationSelf, Resource := ironOre, Quantity := 3 },
               { Relation := RelationSelf, Resource := ironOre, Quantity := 3 }]
    Outputs := [{ Relation := RelationSelf, Resource := iron, Quantity := 7 }]
    Sets := []
    Manual := false
    Repeat := 0
    RepeatFrom := none
    OnFail := none }

def envC3 : List Rule := [ruleC3]

def ctxC3 : RuleContext := { Pools := [(RelationSelf, 0)] }

def stC3 : RunState :=
  { heap := [(0, [(ironOre, { Resource := ironOre, Quantity := 4, Capacity := 100 }),
                  (iron, { Resource := iron, Quantity := 0, Capacity := 100 })])]
    ruleStates := [] }

def ruleC1out : Rule :=
  { Name := "c1a"
    Period := 1
    Preconditions := []
    Inputs := []
    Outputs := [{ Relation := RelationGlobal, Resource := iron, Quantity := 1 }]
    Sets := []
    Manual := false
    Repeat := 0
    RepeatFrom := none
    OnFail := none }

def ruleC1b : Rule :=
  { Name := "c1b"
    Period := 1
    Preconditions := []
    Inputs := []
    Outputs := [{ Relation := RelationSelf, Resource := iron, Quantity := 1 }]
    Sets := []
    Manual := false
    Repeat := 0
    RepeatFrom := none
    OnFail := none }

def envC1 : List Rule := [ruleC1out, ruleC1b]

def ctxC1 : RuleContext := { Pools := [(RelationSelf, 0)] }

def stC1 : RunState :=
  { heap := [(0, [(iron, { Resource := iron, Quantity := 0, Capacity := 10 })])]
    ruleStates := [] }

def ruleC1w : Rule :=
  { Name := "c1w"
    Period := 1
    Preconditions := [{ Relation := RelationGlobal, Resource := iron, Quantity := 1, Op := OpEquals }]
    Inputs := []
    Outputs := []
    Sets := []
    Manual := false
    Repeat := 0
    RepeatFrom := none
    OnFail := none }

def envC1w : List Rule := [ruleC1w]

def ruleCyc : Rule :=
  { Name := "cyc"
    Period := 1
    Preconditions := []
    Inputs := [{ Relation := RelationSelf, Resource := ironOre, Quantity := 5 }]
    Outputs := []
    Sets := []
    Manual := false
    Repeat := 0
    RepeatFrom := none
    OnFail := some 0 }

def envCyc : List Rule := [ruleCyc]

def ctxCyc : RuleContext := { Pools := [(RelationSelf, 0)] }

def stCyc : RunState :=
  { heap := [(0, [(ironOre, { Resource := ironOre, Quantity := 0, Capacity := 10 })])]
    ruleStates := [] }

def objCycA : LoonObject :=
  { ObjType := "rule"
    Name := "a"
    Line := 1
    Directives := [{ Name := "onfail", Args := ["b"], ArgText := "b", Line := 2 }] }

def objCycB : LoonObject :=
  { ObjType := "rule"
    Name := "b"
    Line := 3
    Directives := [{ Name := "onfail", Args := ["a"], ArgText := "a", Line := 4 }] }

def objSelfLoop : LoonObject :=
  { ObjType := "rule"
    Name := "a"
    Line := 1
    Directives := [{ Name := "onfail", Args := ["a"], ArgText := "a", Line := 2 }] }

def emptyRule (nm : String) (onFail : Option Nat) : Rule :=
  { Name := nm
    Period := 1
    Preconditions := []
    Inputs := []
    Outputs := []
    Sets := []
    Manual := false
    Repeat := 0
    RepeatFrom := none
    OnFail := onFail }

def psC2 : PoolSet := [(ironOre, { Resource := ironOre, Quantity := 0, Capacity := 10 })]

def psC4 : PoolSet := [(ironOre, { Resource := ironOre, Quantity := 7, Capacity := 10 })]

def psC9 : PoolSet := [(ironOre, { Resource := ironOre, Quantity := -1, Capacity := 10 })]

def opsC2w : List PoolOp := [PoolOp.add ironOre 3, PoolOp.set ironOre 7, PoolOp.add ironOre 100]

def stC1out : RunState :=
  { heap := [(0, [(iron, { Resource := iron, Quantity := 1, Capacity := 10 })])]
    ruleStates := [(0, { LastRun := 1 }), (1, { LastRun := 1 })] }

def h1C3 : Heap :=
  [(0, [(ironOre, { Resource := ironOre, Quantity := 1, Capacity := 100 }),
        (iron, { Resource := iron, Quantity := 0, Capacity := 100 })])]

def stC3out : RunState := { heap := h1C3, ruleStates := [(0, { LastRun := 1 })] }

theorem lookup_update_of_mem {p : PoolSet} {r : Resource} {pool0 pool : Pool}
    (h : List.lookup r p = some pool0) :
    List.lookup r (PoolSet.update p r pool) = some pool := by
  induction p with
  | nil => simp [List.lookup] at h
  | cons e rest ih =>
    by_cases he : e.1 = r
    · simp [PoolSet.update, List.lookup, he]
    · have hbeq : (e.1 == r) = false := by simp [he]
      have hbeq' : (r == e.1) = false := by
        simp only [beq_eq_false_iff_ne, ne_eq]
        exact fun hr => he hr.symm
      simp only [List.lookup, hbeq'] at h
      simp only [PoolSet.update, hbeq, List.lookup, hbeq', if_false]
      exact ih h

theorem lookup_update_ne {p : PoolSet} {r r' : Resource} {pool : Pool}
    (h : r' ≠ r) :
    List.lookup r' (PoolSet.update p r pool) = List.lookup r' p := by
  induction p with
  | nil => simp [PoolSet.update]
  | cons e rest ih =>
    by_cases he : e.1 = r
    · have hbeq : (e.1 == r) = true := by simp [he]
      have hne : (r' == e.1) = false := by
        simp only [beq_eq_false_iff_ne, ne_eq]
        exact fun hr => h (hr.trans he)
      simp [PoolSet.update, hbeq, List.lookup, hne]
    · have hbeq : (e.1 == r) = false := by simp [he]
      simp only [PoolSet.update, hbeq, if_false, List.lookup]
      cases hcase : (r' == e.1) with
      | true => rfl
      | false => exact ih

theorem lookup_update_absent {p : PoolSet} {r : Resource} {pool : Pool}
    (h : List.lookup r p = none) :
    PoolSet.update p r pool = p := by
  induction p with
  | nil => rfl
  | cons e rest ih =>
    by_cases he : e.1 = r
    · exfalso
      have : (r == e.1) = true := by simp [he]
      simp [List.lookup, this] at h
    · have hbeq : (e.1 == r) = false := by simp [he]
      have hbeq' : (r == e.1) = false := by
        simp only [beq_eq_false_iff_ne, ne_eq]
        exact fun hr => he hr.symm
      simp only [List.lookup, hbeq'] at h
      simp [PoolSet.update, hbeq, ih h]

theorem Quantity_update_of_mem {p : PoolSet} {r : Resource} {pool0 pool : Pool}
    (h : List.lookup r p = some pool0) :
    PoolSet.Quantity (PoolSet.update p r pool) r = pool.Quantity := by
  simp [PoolSet.Quantity, lookup_update_of_mem h]

theorem Quantity_update_ne {p : PoolSet} {r r' : Resource} {pool : Pool}
    (h : r' ≠ r) :
    PoolSet.Quantity (PoolSet.update p r pool) r' = PoolSet.Quantity p r' := by
  simp [PoolSet.Quantity, lookup_update_ne h]

theorem lookup_some_mem {p : PoolSet} {r : Resource} {pool : Pool}
    (h : List.lookup r p = some pool) : ∃ k, (k, pool) ∈ p := by
  induction p with
  | nil => simp [List.lookup] at h
  | cons e rest ih =>
    simp only [List.lookup] at h
    cases hcase : (r == e.1) with
    | true =>
      rw [hcase] at h
      injection h with h
      exact ⟨e.1, by rw [← h, Prod.mk.eta]; exact List.mem_cons_self _ _⟩
    | false =>
      rw [hcase] at h
      obtain ⟨k, hk⟩ := ih h
      exact ⟨k, List.mem_cons_of_mem _ hk⟩

theorem mem_update {p : PoolSet} {r : Resource} {pool : Pool} {x : Resource × Pool}
    (h : x ∈ PoolSet.update p r pool) : x.2 = pool ∨ x ∈ p := by
  induction p with
  | nil => simp [PoolSet.update] at h
  | cons e rest ih =>
    by_cases he : (e.1 == r) = true
    · simp only [PoolSet.update, he, if_true] at h
      rcases List.mem_cons.mp h with h1 | h1
      · exact Or.inl (by rw [h1])
      · exact Or.inr (List.mem_cons_of_mem _ h1)
    · simp only [PoolSet.update, he, if_false] at h
      rcases List.mem_cons.mp h with h1 | h1
      · exact Or.inr (List.mem_cons.mpr (Or.inl h1))
      · rcases ih h1 with h2 | h2
        · exact Or.inl h2
        · exact Or.inr (List.mem_cons_of_mem _ h2)

theorem WF_update {p : PoolSet} {r : Resource} {pool : Pool}
    (hwf : PoolSet.WF p) (h0 : 0 ≤ pool.Quantity) (h1 : pool.Quantity ≤ pool.Capacity) :
    PoolSet.WF (PoolSet.update p r pool) := by
  intro x hx
  rcases mem_update hx with h2 | h2
  · rw [h2]; exact ⟨h0, h1⟩
  · exact hwf x h2

theorem WF_Add {p : PoolSet} {r : Resource} {q : Int}
    (hwf : PoolSet.WF p) (hq : 0 ≤ q) : PoolSet.WF (PoolSet.Add p r q).1 := by
  unfold PoolSet.Add
  cases hl : List.lookup r p with
  | none => simpa using hwf
  | some pool =>
    obtain ⟨k, hk⟩ := lookup_some_mem hl
    obtain ⟨hp0, hp1⟩ := hwf (k, pool) hk
    have hp0' : (0:Int) ≤ pool.Quantity := hp0
    have hp1' : pool.Quantity ≤ pool.Capacity := hp1
    by_cases hcap : pool.Quantity + q > pool.Capacity
    · simp only [hcap, if_true]
      exact WF_update hwf (le_trans hp0 hp1) le_rfl
    · simp only [hcap, if_false]
      refine WF_update hwf ?_ ?_
      · show (0:Int) ≤ pool.Quantity + q
        omega
      · show pool.Quantity + q ≤ pool.Capacity
        omega

theorem lookup_rsUpdate_self (l : List (Nat × RuleState)) (rid : Nat) (s : RuleState) :
    List.lookup rid (rsUpdate l rid s) = some s := by
  induction l with
  | nil => simp [rsUpdate, List.lookup]
  | cons e rest ih =>
    by_cases he : e.1 = rid
    · simp [rsUpdate, List.lookup, he]
    · have hbeq : (e.1 == rid) = false := by simp [he]
      have hbeq' : (rid == e.1) = false := by
        simp only [beq_eq_false_iff_ne, ne_eq]
        exact fun hr => he hr.symm
      simp only [rsUpdate, hbeq, if_false, List.lookup, hbeq']
      exact ih

theorem getRuleState_set (st : RunState) (rid : Nat) (s : RuleState) :
    getRuleState (setRuleState st rid s) rid = s := by
  simp [getRuleState, setRuleState, lookup_rsUpdate_self]

theorem runRule_not_due {env : List Rule} {fuel rid : Nat} {tick : Int}
    {ctx : RuleContext} {st : RunState} {rule : Rule}
    (hget : List.get? env rid = some rule)
    (h : (getRuleState st rid).LastRun + rule.Period > tick) :
    runRule env (fuel + 1) rid tick ctx st = some (st, none) := by
  simp only [runRule, hget]
  rw [if_pos h]

theorem runRule_due {env : List Rule} {fuel rid : Nat} {tick : Int}
    {ctx : RuleContext} {st : RunState} {rule : Rule}
    (hget : List.get? env rid = some rule)
    (hdue : (getRuleState st rid).LastRun + rule.Period ≤ tick) :
    runRule env (fuel + 1) rid tick ctx st =
      match (match initialRounds rule ctx st.heap with
             | none => some (st, none)
             | some rounds =>
               roundLoop (fun fid st' => runRule env fuel fid tick ctx st')
                 rule ctx rounds.toNat false st) with
      | none => none
      | some (st', e) => some (setRuleState st' rid { LastRun := tick }, e) := by
  simp only [runRule, hget]
  rw [if_neg (by omega)]

theorem roundLoop_false_later {recur : Nat → RunState → Option (RunState × Option Err)}
    {rule : Rule} {ctx : RuleContext} {st : RunState} {n : Nat}
    (h : canRun rule ctx st.heap = .ok false) :
    roundLoop recur rule ctx (n + 1) true st = some (st, none) := by
  simp [roundLoop, h]

theorem roundLoop_false_noFallback {recur : Nat → RunState → Option (RunState × Option Err)}
    {rule : Rule} {ctx : RuleContext} {st : RunState} {n : Nat}
    (h : canRun rule ctx st.heap = .ok false) (hof : rule.OnFail = none) :
    roundLoop recur rule ctx (n + 1) false st = some (st, none) := by
  simp [roundLoop, h, hof]

theorem roundLoop_false_fallback {recur : Nat → RunState → Option (RunState × Option Err)}
    {rule : Rule} {ctx : RuleContext} {st : RunState} {n : Nat} {fid : Nat}
    (h : canRun rule ctx st.heap = .ok false) (hof : rule.OnFail = some fid) :
    roundLoop recur rule ctx (n + 1) false st = recur fid st := by
  simp [roundLoop, h, hof]

theorem roundLoop_error {recur : Nat → RunState → Option (RunState × Option Err)}
    {rule : Rule} {ctx : RuleContext} {st : RunState} {n : Nat} {runOnce : Bool} {e : Err}
    (h : canRun rule ctx st.heap = .error e) :
    roundLoop recur rule ctx (n + 1) runOnce st = some (st, some e) := by
  simp [roundLoop, h]

theorem roundLoop_inputs_abort {recur : Nat → RunState → Option (RunState × Option Err)}
    {rule : Rule} {ctx : RuleContext} {st : RunState} {n : Nat} {runOnce : Bool} {h1 : Heap}
    (hcan : canRun rule ctx st.heap = .ok true)
    (happ : applyInputs ctx rule.Inputs st.heap = (h1, false)) :
    roundLoop recur rule ctx (n + 1) runOnce st = some ({ st with heap := h1 }, none) := by
  simp [roundLoop, hcan, happ]

theorem runRule_fallback_eq {env : List Rule} {fuel rid : Nat} {tick : Int}
    {ctx : RuleContext} {st : RunState} {rule : Rule} {fid : Nat} {r : Int}
    (hget : List.get? env rid = some rule)
    (hdue : (getRuleState st rid).LastRun + rule.Period ≤ tick)
    (hir : initialRounds rule ctx st.heap = some r) (hr : 0 < r)
    (hcan : canRun rule ctx st.heap = .ok false) (hof : rule.OnFail = some fid) :
    runRule env (fuel + 1) rid tick ctx st =
      Option.map (fun p => (setRuleState p.1 rid { LastRun := tick }, p.2))
        (runRule env fuel fid tick ctx st) := by
  rw [runRule_due hget hdue]
  simp only [hir]
  obtain ⟨n, hn⟩ : ∃ n, r.toNat = n + 1 := ⟨r.toNat - 1, by omega⟩
  rw [hn, roundLoop_false_fallback hcan hof]
  cases runRule env fuel fid tick ctx st with
  | none => rfl
  | some p => rfl

theorem runRule_canRun_error {env : List Rule} {fuel rid : Nat} {tick : Int}
    {ctx : RuleContext} {st : RunState} {rule : Rule} {r : Int} {e : Err}
    (hget : List.get? env rid = some rule)
    (hdue : (getRuleState st rid).LastRun + rule.Period ≤ tick)
    (hir : initialRounds rule ctx st.heap = some r) (hr : 0 < r)
    (hcan : canRun rule ctx st.heap = .error e) :
    runRule env (fuel + 1) rid tick ctx st =
      some (setRuleState st rid { LastRun := tick }, some e) := by
  rw [runRule_due hget hdue]
  simp only [hir]
  obtain ⟨n, hn⟩ : ∃ n, r.toNat = n + 1 := ⟨r.toNat - 1, by omega⟩
  rw [hn, roundLoop_error hcan]

theorem runRule_noRounds {env : List Rule} {fuel rid : Nat} {tick : Int}
    {ctx : RuleContext} {st : RunState} {rule : Rule}
    (hget : List.get? env rid = some rule)
    (hdue : (getRuleState st rid).LastRun + rule.Period ≤ tick)
    (hir : initialRounds rule ctx st.heap = none) :
    runRule env (fuel + 1) rid tick ctx st =
      some (setRuleState st rid { LastRun := tick }, none) := by
  rw [runRule_due hget hdue]
  simp only [hir]

theorem runRule_due_result {env : List Rule} {fuel rid : Nat} {tick : Int}
    {ctx : RuleContext} {st st' : RunState} {rule : Rule} {e : Option Err}
    (hget : List.get? env rid = some rule)
    (hdue : (getRuleState st rid).LastRun + rule.Period ≤ tick)
    (hres : runRule env (fuel + 1) rid tick ctx st = some (st', e)) :
    ∃ st1, st' = setRuleState st1 rid { LastRun := tick } := by
  rw [runRule_due hget hdue] at hres
  revert hres
  cases (match initialRounds rule ctx st.heap with
         | none => some (st, none)
         | some rounds =>
           roundLoop (fun fid st' => runRule env fuel fid tick ctx st')
             rule ctx rounds.toNat false st) with
  | none => intro hres; exact absurd hres (by simp)
  | some p =>
    obtain ⟨st1, e1⟩ := p
    intro hres
    injection hres with h2
    exact ⟨st1, (congrArg Prod.fst h2).symm⟩

theorem roundLoop_ne_none {recur : Nat → RunState → Option (RunState × Option Err)}
    {rule : Rule} {ctx : RuleContext}
    (hrec : ∀ fid st', rule.OnFail = some fid → recur fid st' ≠ none) :
    ∀ (n : Nat) (runOnce : Bool) (st : RunState),
      roundLoop recur rule ctx n runOnce st ≠ none := by
  intro n
  induction n with
  | zero => intro ro st; simp [roundLoop]
  | succ m ih =>
    intro ro st
    simp only [roundLoop]
    split
    · simp
    · split
      · split
        · apply hrec
          assumption
        · simp
      · simp
    · split
      · simp
      · split
        · simp
        · split
          · simp
          · apply ih

theorem WF_Set {p : PoolSet} {r : Resource} {q : Int}
    (hwf : PoolSet.WF p) (hq : 0 ≤ q) : PoolSet.WF (PoolSet.Set p r q).1 := by
  unfold PoolSet.Set
  cases hl : List.lookup r p with
  | none => simpa using hwf
  | some pool =>
    obtain ⟨k, hk⟩ := lookup_some_mem hl
    obtain ⟨hp0, hp1⟩ := hwf (k, pool) hk
    have hp0' : (0:Int) ≤ pool.Quantity := hp0
    have hp1' : pool.Quantity ≤ pool.Capacity := hp1
    by_cases hcap : q > pool.Capacity
    · simp only [hcap, if_true]
      exact WF_update hwf (le_trans hp0 hp1) le_rfl
    · simp only [hcap, if_false]
      refine WF_update hwf ?_ ?_
      · show (0:Int) ≤ q
        exact hq
      · show q ≤ pool.Capacity
        omega

/-! The claims. -/

/-- Claim C1, counterexample: a rule whose output names the relation
    `global`, absent from the context, does not make `Run` return an error;
    the rule is logged and skipped, and the remaining rules of the batch
    still run (the second rule's output of 1 iron is applied). -/
theorem C1_counterexample :
    List.lookup RelationGlobal ctxC1.Pools = none ∧
    ruleC1out.Outputs = [{ Relation := RelationGlobal, Resource := iron, Quantity := 1 }] ∧
    run envC1 2 [0, 1] 1 ctxC1 stC1 = some (stC1out, none) ∧
    PoolSet.Quantity (heapFind stC1out.heap 0) iron = 1 := by
  exact ⟨rfl, rfl, by decide, rfl⟩

/-- Claim C1, amended: `Run` propagates the first hard error returned by
    `RunRule` and aborts the remaining rules of the batch. An input
    specifier whose relation is absent from the context is such a hard
    error, raised by `canRun` (here stated for a rule with no
    preconditions), and a hard error from `canRun` on a due round aborts
    the rule with that error; an output or set specifier with an absent
    relation, by contrast, is logged and is not an error. -/
theorem C1_fail_fast :
    (∀ (env : List Rule) (fuel rid : Nat) (rest : List Nat) (tick : Int)
       (ctx : RuleContext) (st st' : RunState) (e : Err) (rule : Rule),
      List.get? env rid = some rule → rule.Period ≠ 0 →
      runRule env fuel rid tick ctx st = some (st', some e) →
      run env fuel (rid :: rest) tick ctx st = some (st', some e)) ∧
    (∀ (rule : Rule) (ctx : RuleContext) (h : Heap) (inp : ResourceSpecifier)
       (tl : List ResourceSpecifier),
      rule.Preconditions = [] → rule.Inputs = inp :: tl →
      List.lookup inp.Relation ctx.Pools = none →
      canRun rule ctx h = .error (.noInputPoolset rule.Name inp.Relation)) ∧
    (∀ (env : List Rule) (fuel rid : Nat) (tick : Int) (ctx : RuleContext)
       (st : RunState) (rule : Rule) (r : Int) (e : Err),
      List.get? env rid = some rule →
      (getRuleState st rid).LastRun + rule.Period ≤ tick →
      initialRounds rule ctx st.heap = some r → 0 < r →
      canRun rule ctx st.heap = .error e →
      runRule env (fuel + 1) rid tick ctx st =
        some (setRuleState st rid { LastRun := tick }, some e)) := by
  refine ⟨?_, ?_, ?_⟩
  · intro env fuel rid rest tick ctx st st' e rule hget hper hrr
    simp only [run, hget]
    rw [if_neg hper, hrr]
  · intro rule ctx h inp tl hpre hin hlookup
    simp [canRun, hpre, checkConds, hin, checkInputs, hlookup]
  · intro env fuel rid tick ctx st rule r e hget hdue hir hr hcan
    exact runRule_canRun_error hget hdue hir hr hcan

/-- Claim C1, witness: a due rule whose precondition names the absent
    relation `global` makes `RunRule` return that error and `Run` abort the
    batch with it. -/
theorem C1_witness :
    run envC1w 1 [0, 5] 1 ctxC1 stC1 =
      some (setRuleState stC1 0 { LastRun := 1 },
        some (Err.noPreconditionPoolset "c1w" RelationGlobal)) :=
  C1_fail_fast.1 envC1w 1 0 [5] 1 ctxC1 stC1
    (setRuleState stC1 0 { LastRun := 1 })
    (Err.noPreconditionPoolset "c1w" RelationGlobal) ruleC1w rfl
    (by decide) (by decide)

/-- Claim C2, counterexample: `Set` with a negative quantity drives a
    well-formed pool (quantity 0, capacity 10) to quantity −5; the claimed
    invariant `0 ≤ quantity` fails for negative call quantities because
    `Add`/`Set` clamp only at the capacity, never at zero. -/
theorem C2_counterexample :
    PoolSet.WF psC2 ∧
    PoolSet.Quantity (applyPoolOps [PoolOp.set ironOre (-5)] psC2) ironOre = -5 ∧
    ¬ (0 ≤ PoolSet.Quantity (applyPoolOps [PoolOp.set ironOre (-5)] psC2) ironOre) := by
  exact ⟨by decide, by decide, by decide⟩

/-- Claim C2, amended: for every pool set whose pools all satisfy
    `0 ≤ quantity ≤ capacity`, after any sequence of `Add` and `Set` calls
    with nonnegative quantities every pool still satisfies
    `0 ≤ quantity ≤ capacity`. -/
theorem C2_invariant (ps : PoolSet) (ops : List PoolOp)
    (hwf : PoolSet.WF ps) (hops : ∀ op ∈ ops, 0 ≤ PoolOp.quantity op) :
    PoolSet.WF (applyPoolOps ops ps) := by
  induction ops generalizing ps with
  | nil => exact hwf
  | cons op rest ih =>
    cases op with
    | add r q =>
      apply ih
      · exact WF_Add hwf (hops _ (List.mem_cons_self _ _))
      · intro o ho
        exact hops o (List.mem_cons_of_mem _ ho)
    | set r q =>
      apply ih
      · exact WF_Set hwf (hops _ (List.mem_cons_self _ _))
      · intro o ho
        exact hops o (List.mem_cons_of_mem _ ho)

/-- Claim C2, witness: the invariant holds after a concrete sequence of
    nonnegative `Add`/`Set` calls, including one whose excess is clamped. -/
theorem C2_witness : PoolSet.WF psC2 ∧ PoolSet.WF (applyPoolOps opsC2w psC2) :=
  ⟨by decide, C2_invariant psC2 opsC2w (by decide) (by decide)⟩

/-- Claim C3, counterexample: a rule consuming the same resource twice
    (3 + 3 of iron ore, with only 4 present) passes `canRun`, removes the
    first 3, fails the second removal and aborts the round — yet the first
    removal is observable (iron ore went from 4 to 1) even though no output
    was applied, so the round's input application is not atomic. -/
theorem C3_counterexample :
    runRule envC3 1 0 1 ctxC3 stC3 = some (stC3out, none) ∧
    PoolSet.Quantity (heapFind stC3.heap 0) ironOre = 4 ∧
    PoolSet.Quantity (heapFind stC3out.heap 0) ironOre = 1 ∧
    PoolSet.Quantity (heapFind stC3out.heap 0) iron = 0 := by
  exact ⟨by decide, rfl, rfl, rfl⟩

/-- Claim C3, amended: within a round, after `canRun` succeeds the inputs
    are applied sequentially via `Remove` (each call individually atomic);
    if any removal reports unaccommodated excess, or an input relation is
    absent, the round loop aborts with no outputs or sets applied and no
    error, but the removals already applied earlier in that round remain in
    place (the abort state is exactly the heap `applyInputs` reached). -/
theorem C3_round_abort (recur : Nat → RunState → Option (RunState × Option Err))
    (rule : Rule) (ctx : RuleContext) (st : RunState) (n : Nat) (runOnce : Bool)
    (h1 : Heap) (hcan : canRun rule ctx st.heap = .ok true)
    (happ : applyInputs ctx rule.Inputs st.heap = (h1, false)) :
    roundLoop recur rule ctx (n + 1) runOnce st = some ({ st with heap := h1 }, none) :=
  roundLoop_inputs_abort hcan happ

/-- Claim C3, witness: the abort equation at the concrete double-input
    rule. -/
theorem C3_witness :
    canRun ruleC3 ctxC3 stC3.heap = .ok true ∧
    applyInputs ctxC3 ruleC3.Inputs stC3.heap = (h1C3, false) ∧
    roundLoop (fun _ _ => none) ruleC3 ctxC3 1 false stC3 =
      some ({ stC3 with heap := h1C3 }, none) :=
  ⟨by decide, by decide,
   C3_round_abort (fun _ _ => none) ruleC3 ctxC3 stC3 0 false h1C3
     (by decide) (by decide)⟩

/-- Claim C4: `Remove(r, q)` is atomic. If the pool is absent (which also
    covers Go's nil set or nil resource) the call returns `q` and mutates
    nothing; if the current quantity is below `q` the call returns `q` and
    mutates nothing; otherwise it returns 0, the pool's quantity decreases
    by exactly `q`, and every other pool is untouched — a partial removal
    is never observable. -/
theorem C4_remove_atomic (p : PoolSet) (r : Resource) (q : Int) :
    (List.lookup r p = none → PoolSet.Remove p r q = (p, q)) ∧
    (∀ pool, List.lookup r p = some pool → pool.Quantity < q →
      PoolSet.Remove p r q = (p, q)) ∧
    (∀ pool, List.lookup r p = some pool → q ≤ pool.Quantity →
      (PoolSet.Remove p r q).2 = 0 ∧
      PoolSet.Quantity (PoolSet.Remove p r q).1 r = PoolSet.Quantity p r - q ∧
      ∀ r', r' ≠ r →
        PoolSet.Quantity (PoolSet.Remove p r q).1 r' = PoolSet.Quantity p r') := by
  refine ⟨?_, ?_, ?_⟩
  · intro h
    simp [PoolSet.Remove, h]
  · intro pool h hlt
    simp [PoolSet.Remove, h, hlt]
  · intro pool h hle
    have hnot : ¬ pool.Quantity < q := not_lt.mpr hle
    refine ⟨by simp [PoolSet.Remove, h, hnot], ?_, ?_⟩
    · simp only [PoolSet.Remove, h, hnot, if_false]
      rw [Quantity_update_of_mem h]
      simp [PoolSet.Quantity, h]
    · intro r' hne
      simp only [PoolSet.Remove, h, hnot, if_false]
      exact Quantity_update_ne hne

/-- Claim C4, witness: removing 3 from a pool holding 7 returns 0 and
    leaves 4. -/
theorem C4_witness :
    (PoolSet.Remove psC4 ironOre 3).2 = 0 ∧
    PoolSet.Quantity (PoolSet.Remove psC4 ironOre 3).1 ironOre =
      PoolSet.Quantity psC4 ironOre - 3 :=
  ⟨((C4_remove_atomic psC4 ironOre 3).2.2
      { Resource := ironOre, Quantity := 7, Capacity := 10 } (by decide) (by decide)).1,
   ((C4_remove_atomic psC4 ironOre 3).2.2
      { Resource := ironOre, Quantity := 7, Capacity := 10 } (by decide) (by decide)).2.1⟩

/-- Claim C5: a rule that is not yet due (`lastRun + period > tick`)
    returns immediately with no state change at all — not even `lastRun`
    is updated; and whenever a due call completes at tick T, the stored
    `lastRun` becomes T, so any later call before tick T + period returns
    with no state change. -/
theorem C5_throttle :
    (∀ (env : List Rule) (fuel rid : Nat) (tick : Int) (ctx : RuleContext)
       (st : RunState) (rule : Rule),
      List.get? env rid = some rule →
      (getRuleState st rid).LastRun + rule.Period > tick →
      runRule env (fuel + 1) rid tick ctx st = some (st, none)) ∧
    (∀ (env : List Rule) (fuel rid : Nat) (tick : Int) (ctx : RuleContext)
       (st st' : RunState) (rule : Rule) (e : Option Err),
      List.get? env rid = some rule →
      (getRuleState st rid).LastRun + rule.Period ≤ tick →
      runRule env (fuel + 1) rid tick ctx st = some (st', e) →
      (getRuleState st' rid).LastRun = tick ∧
      ∀ (fuel' : Nat) (tick' : Int) (ctx' : RuleContext), tick' < tick + rule.Period →
        runRule env (fuel' + 1) rid tick' ctx' st' = some (st', none)) := by
  constructor
  · intro env fuel rid tick ctx st rule hget h
    exact runRule_not_due hget h
  · intro env fuel rid tick ctx st st' rule e hget hdue hres
    obtain ⟨st1, hst⟩ := runRule_due_result hget hdue hres
    have hlast : (getRuleState st' rid).LastRun = tick := by
      rw [hst, getRuleState_set]
    refine ⟨hlast, ?_⟩
    intro fuel' tick' ctx' hlt
    apply runRule_not_due hget
    rw [hlast]
    omega

/-- Claim C5, witness: a rule of period 5 last run at tick 3 is throttled
    at tick 7 and the state is untouched. -/
theorem C5_witness :
    (getRuleState stC5 0).LastRun + ruleC5.Period > 7 ∧
    runRule envC5 1 0 7 { Pools := [] } stC5 = some (stC5, none) :=
  ⟨by decide,
   C5_throttle.1 envC5 0 0 7 { Pools := [] } stC5 ruleC5 rfl (by decide)⟩

/-- Claim C6: when `canRun` returns false without error on the first round
    of a due call and the rule has a fallback, `RunRule` recursively
    invokes itself on the fallback with the same tick and context and
    returns that result (the outer rule only adds its own deferred
    `lastRun := tick` write); when `canRun` fails on a later round
    (`runOnce` true), or on the first round with no fallback, the round
    loop stops and returns normally with the state it had reached. -/
theorem C6_fallback :
    (∀ (env : List Rule) (fuel rid : Nat) (tick : Int) (ctx : RuleContext)
       (st : RunState) (rule : Rule) (fid : Nat) (r : Int),
      List.get? env rid = some rule →
      (getRuleState st rid).LastRun + rule.Period ≤ tick →
      initialRounds rule ctx st.heap = some r → 0 < r →
      canRun rule ctx st.heap = .ok false →
      rule.OnFail = some fid →
      runRule env (fuel + 1) rid tick ctx st =
        Option.map (fun p => (setRuleState p.1 rid { LastRun := tick }, p.2))
          (runRule env fuel fid tick ctx st)) ∧
    (∀ (recur : Nat → RunState → Option (RunState × Option Err)) (rule : Rule)
       (ctx : RuleContext) (st : RunState) (n : Nat),
      canRun rule ctx st.heap = .ok false →
      roundLoop recur rule ctx (n + 1) true st = some (st, none)) ∧
    (∀ (recur : Nat → RunState → Option (RunState × Option Err)) (rule : Rule)
       (ctx : RuleContext) (st : RunState) (n : Nat),
      canRun rule ctx st.heap = .ok false → rule.OnFail = none →
      roundLoop recur rule ctx (n + 1) false st = some (st, none)) := by
  refine ⟨?_, ?_, ?_⟩
  · intro env fuel rid tick ctx st rule fid r hget hdue hir hr hcan hof
    exact runRule_fallback_eq hget hdue hir hr hcan hof
  · intro recur rule ctx st n h
    exact roundLoop_false_later h
  · intro recur rule ctx st n h hof
    exact roundLoop_false_noFallback h hof

/-- Claim C6, witness: the concrete rule `c6` cannot run (needs 5 iron ore,
    0 present) and delegates to its fallback `c6fb`, whose own evaluation
    produces the returned result. -/
theorem C6_witness :
    canRun ruleC6main ctxC6 stC6.heap = .ok false ∧
    runRule envC6 2 0 1 ctxC6 stC6 =
      Option.map (fun p => (setRuleState p.1 0 { LastRun := 1 }, p.2))
        (runRule envC6 1 1 1 ctxC6 stC6) :=
  ⟨by decide,
   C6_fallback.1 envC6 1 0 1 ctxC6 stC6 ruleC6main 1 1 rfl (by decide)
     (by decide) (by decide) (by decide) rfl⟩

/-- Claim C7: the round count of a due rule. With a dynamic repeat source
    whose relation is absent, `RunRule` returns without error and with no
    pool mutation (only the deferred `lastRun` write); with the relation
    present, the initial round count is exactly the current quantity of the
    source resource in that pool set (0 when the resource has no pool
    there), whatever the fixed repeat is; with no dynamic source it is the
    fixed repeat + 1 — and the concrete rule with `repeat 12` and ample
    resources consumes its input exactly 13 times in one call
    (100 − 13 = 87). -/
theorem C7_round_count :
    (∀ (env : List Rule) (fuel rid : Nat) (tick : Int) (ctx : RuleContext)
       (st : RunState) (rule : Rule) (src : ResourceSource),
      List.get? env rid = some rule →
      (getRuleState st rid).LastRun + rule.Period ≤ tick →
      rule.RepeatFrom = some src →
      List.lookup src.Relation ctx.Pools = none →
      runRule env (fuel + 1) rid tick ctx st =
        some (setRuleState st rid { LastRun := tick }, none)) ∧
    (∀ (rule : Rule) (ctx : RuleContext) (h : Heap) (src : ResourceSource) (psid : Nat),
      rule.RepeatFrom = some src →
      List.lookup src.Relation ctx.Pools = some psid →
      initialRounds rule ctx h =
        some (PoolSet.Quantity (heapFind h psid) src.Resource)) ∧
    (∀ (rule : Rule) (ctx : RuleContext) (h : Heap),
      rule.RepeatFrom = none → initialRounds rule ctx h = some (rule.Repeat + 1)) ∧
    runRule env7 1 0 1 ctx7 st7 = some (st7out, none) := by
  refine ⟨?_, ?_, ?_, by decide⟩
  · intro env fuel rid tick ctx st rule src hget hdue hrf hlookup
    apply runRule_noRounds hget hdue
    simp [initialRounds, hrf, hlookup]
  · intro rule ctx h src psid hrf hlookup
    simp only [initialRounds, hrf, hlookup]
    cases hl : List.lookup src.Resource (heapFind h psid) with
    | none => simp [PoolSet.Quantity, hl]
    | some pool => simp [PoolSet.Quantity, hl]
  · intro rule ctx h hrf
    simp [initialRounds, hrf]

/-- Claim C7, witness: the rule drawing its round count from the absent
    relation `location` returns at once, without error and with the heap
    untouched. -/
theorem C7_witness :
    List.lookup RelationLocation ctx7.Pools = none ∧
    runRule envC7a 1 0 1 ctx7 st7 = some (setRuleState st7 0 { LastRun := 1 }, none) :=
  ⟨rfl,
   C7_round_count.1 envC7a 0 0 1 ctx7 st7 ruleC7a
     { Relation := RelationLocation, Resource := ironOre } rfl (by decide) rfl rfl⟩

/-- Claim C8: parsing the rule text `rule test / if global iron_ore > 6 /
    in global iron_ore 3 / out self iron 1 / end` (as the loon tokenizer
    delivers it) against a catalog containing `iron_ore` and `iron` yields
    exactly one rule named `test` with one precondition
    (global, iron_ore, >, 6), one input (global, iron_ore, 3), one output
    (self, iron, 1) and period 1, the default when `every` is omitted. -/
theorem C8_parse : RuleParser.Parse rmTest [c8Obj] = .ok [c8Rule] := by decide

/-- Claim C9, counterexample: with a prior quantity of −1 (reachable via a
    negative `Set`), `Add 5` causes no clamping (it returns 0) yet
    `Remove 5` then fails (4 < 5) and the quantity stays at 4 instead of
    returning to −1. -/
theorem C9_counterexample :
    PoolSet.Quantity psC9 ironOre = -1 ∧
    (PoolSet.Add psC9 ironOre 5).2 = 0 ∧
    PoolSet.Quantity (PoolSet.Remove (PoolSet.Add psC9 ironOre 5).1 ironOre 5).1 ironOre = 4 := by
  exact ⟨rfl, by decide, by decide⟩

/-- Claim C9, amended: `Add` then `Remove` of the same quantity returns the
    pool's quantity to its prior value whenever the `Add` caused no
    clamping (returned 0) and the prior quantity was nonnegative. -/
theorem C9_roundtrip (p : PoolSet) (r : Resource) (q : Int)
    (h0 : 0 ≤ PoolSet.Quantity p r) (hnc : (PoolSet.Add p r q).2 = 0) :
    PoolSet.Quantity (PoolSet.Remove (PoolSet.Add p r q).1 r q).1 r =
      PoolSet.Quantity p r := by
  cases hl : List.lookup r p with
  | none =>
    have hadd : PoolSet.Add p r q = (p, q) := by simp [PoolSet.Add, hl]
    rw [hadd] at hnc ⊢
    simp only at hnc
    subst hnc
    simp [PoolSet.Remove, hl]
  | some pool =>
    have hq : PoolSet.Quantity p r = pool.Quantity := by simp [PoolSet.Quantity, hl]
    rw [hq] at h0 ⊢
    by_cases hcap : pool.Quantity + q > pool.Capacity
    · exfalso
      have h2 : (PoolSet.Add p r q).2 = pool.Quantity + q - pool.Capacity := by
        simp [PoolSet.Add, hl, hcap]
      rw [h2] at hnc
      omega
    · have h1 : (PoolSet.Add p r q).1 =
          PoolSet.update p r { pool with Quantity := pool.Quantity + q } := by
        simp [PoolSet.Add, hl, hcap]
      rw [h1]
      have hl2 : List.lookup r (PoolSet.update p r { pool with Quantity := pool.Quantity + q }) =
          some { pool with Quantity := pool.Quantity + q } := lookup_update_of_mem hl
      have hnotlt : ¬ ({ pool with Quantity := pool.Quantity + q }.Quantity < q) := by
        show ¬ (pool.Quantity + q < q)
        omega
      simp only [PoolSet.Remove, hl2, hnotlt, if_false]
      rw [Quantity_update_of_mem hl2]
      show pool.Quantity + q - q = pool.Quantity
      omega

/-- Claim C9, witness: adding then removing 2 on a pool holding 7 (of
    capacity 10) returns the quantity to 7. -/
theorem C9_witness :
    0 ≤ PoolSet.Quantity psC4 ironOre ∧ (PoolSet.Add psC4 ironOre 2).2 = 0 ∧
    PoolSet.Quantity (PoolSet.Remove (PoolSet.Add psC4 ironOre 2).1 ironOre 2).1 ironOre =
      PoolSet.Quantity psC4 ironOre :=
  ⟨by decide, by decide, C9_roundtrip psC4 ironOre 2 (by decide) (by decide)⟩

/-- Claim C10: `RunRule` terminates whenever the fallback chain of the rule
    reaches a rule without a fallback within the allotted depth (in
    particular, for every acyclic chain with enough fuel); the parser
    accepts a two-rule `onfail` cycle and a self-referential `onfail`
    without complaint; and the concrete self-cyclic rule, due and failing
    `canRun` on its first round, recurses past every depth bound —
    Go's unbounded recursion never returns, because `lastRun` is written
    only by the deferred update after the recursive call returns, so the
    throttle check never sees it. -/
theorem C10_termination :
    (∀ (env : List Rule) (fuel rid : Nat) (tick : Int) (ctx : RuleContext)
       (st : RunState),
      terminatesIn env fuel rid = true → runRule env fuel rid tick ctx st ≠ none) ∧
    RuleParser.Parse [] [objCycA, objCycB] =
      .ok [emptyRule "a" (some 1), emptyRule "b" (some 0)] ∧
    RuleParser.Parse [] [objSelfLoop] = .ok [emptyRule "a" (some 0)] ∧
    (∀ fuel, runRule envCyc fuel 0 1 ctxCyc stCyc = none) := by
  refine ⟨?_, by decide, by decide, ?_⟩
  · intro env fuel
    induction fuel with
    | zero =>
      intro rid tick ctx st h
      simp [terminatesIn] at h
    | succ f ih =>
      intro rid tick ctx st h
      cases hget : List.get? env rid with
      | none =>
        simp only [runRule, hget]
        simp
      | some rule =>
        by_cases hdue : (getRuleState st rid).LastRun + rule.Period > tick
        · rw [runRule_not_due hget hdue]
          simp
        · rw [runRule_due hget (by omega)]
          have hrec : ∀ fid st', rule.OnFail = some fid →
              runRule env f fid tick ctx st' ≠ none := by
            intro fid st' hof
            apply ih fid tick ctx st'
            simp only [terminatesIn, hget, hof] at h
            exact h
          cases hb : (match initialRounds rule ctx st.heap with
                      | none => some (st, none)
                      | some rounds =>
                        roundLoop (fun fid st' => runRule env f fid tick ctx st')
                          rule ctx rounds.toNat false st) with
          | none =>
            exfalso
            revert hb
            cases hir : initialRounds rule ctx st.heap with
            | none => simp
            | some rounds =>
              intro hb
              exact roundLoop_ne_none hrec rounds.toNat false st hb
          | some p =>
            obtain ⟨st1, e1⟩ := p
            simp
  · intro fuel
    induction fuel with
    | zero => rfl
    | succ f ih =>
      have hget : List.get? envCyc 0 = some ruleCyc := rfl
      have hdue : (getRuleState stCyc 0).LastRun + ruleCyc.Period ≤ 1 := by decide
      have hir : initialRounds ruleCyc ctxCyc stCyc.heap = some 1 := by decide
      have hr : (0 : Int) < 1 := by decide
      have hcan : canRun ruleCyc ctxCyc stCyc.heap = .ok false := by decide
      have hof : ruleCyc.OnFail = some 0 := rfl
      rw [runRule_fallback_eq hget hdue hir hr hcan hof, ih]
      rfl

/-- Claim C10, witness: the fuel bound is reached for the fallback-free
    rule `t`, so its evaluation returns a result. -/
theorem C10_witness :
    terminatesIn env7 1 0 = true ∧ runRule env7 1 0 1 ctx7 st7 ≠ none :=
  ⟨by decide, C10_termination.1 env7 1 0 1 ctx7 st7 (by decide)⟩

end Rula
